import Mathlib

/-!
Shallow embedding of the catalog scraper `src/scrape_ahlsell.py` (text cleanup,
section parsing, deduplication) and of the invoice arithmetic of
`src/vvs_invoice_app.py`.

Python text is modelled as `List Char`.  Each Python regex used by the program
is hand-compiled into an executable matcher with the same backtracking
semantics on the alphabet the program manipulates (ASCII plus the Swedish
letters and the characters appearing in the program's own patterns); in
particular `\w`/`\d`/`\s` are modelled by `isWordChar`/`Char.isDigit`/
`Char.isWhitespace`.  Floating-point amounts of the invoice app are idealised
as rationals.
-/

set_option maxRecDepth 20000

/-- Python strings are modelled as lists of characters. -/
abbrev Str := List Char

/-- Python's `\w` (word character) restricted to the alphabet this program
manipulates: ASCII alphanumerics, underscore, the Swedish letters, and the
superscript two (which is alphanumeric for Python's `re`). -/
def isWordChar (c : Char) : Bool :=
  c.isAlphanum || c = '_' || c = 'å' || c = 'ä' || c = 'ö' ||
    c = 'Å' || c = 'Ä' || c = 'Ö' || c = '²'

/-- Python's `\s`, restricted to the common whitespace characters. -/
def isWs (c : Char) : Bool := c.isWhitespace

/-- Python `str.strip()`. -/
def strip (s : Str) : Str := ((s.dropWhile isWs).reverse.dropWhile isWs).reverse

/-- Worker for `collapseWs`; the flag records whether the previous character was
whitespace (so a whitespace run emits a single space). -/
def collapseGo : Bool → Str → Str
  | _, [] => []
  | prevWs, c :: cs =>
    if isWs c then
      if prevWs then collapseGo true cs else ' ' :: collapseGo true cs
    else c :: collapseGo false cs

/-- `re.sub(r"\s+", " ", s)`: every maximal whitespace run becomes one space. -/
def collapseWs (s : Str) : Str := collapseGo false s

/-- The boilerplate phrase of `scrape_ahlsell.py` ("Läs mer om produkterna på
ahlsell.se"). -/
def lasLit : Str := "Läs mer om produkterna på ahlsell.se".data

/-- `re.sub(r"Läs mer om produkterna på ahlsell\.se\s*", "", s)` from
`clean_product_name` (line 57): global left-to-right removal, each occurrence
consuming the following whitespace run.  The fuel is the length of the text. -/
def lasSubAll : Nat → Str → Str
  | 0, s => s
  | _ + 1, [] => []
  | n + 1, c :: cs =>
    if lasLit.isPrefixOf (c :: cs) then
      lasSubAll n (((c :: cs).drop lasLit.length).dropWhile isWs)
    else c :: lasSubAll n cs

/-- Does the text start with a whitespace character? -/
def wsHead : Str → Bool
  | [] => false
  | c :: _ => isWs c

/-- Matcher for `lit` followed by `\s+`, returning the text after the greedy
whitespace run. -/
def litThenWs (lit : Str) (t : Str) : Option Str :=
  if lit.isPrefixOf t then
    let r := t.drop lit.length
    if wsHead r then some (r.dropWhile isWs) else none
  else none

/-- Alternatives of the unit-abbreviation rule `^(?:mm²|mm|cm|lm|kg|kN|kW|mAh?)\s+`
(line 70), in the regex's order (`mAh?` expands to `mAh` then `mA`). -/
def ruleA_alts : List Str :=
  ["mm²".data, "mm".data, "cm".data, "lm".data, "kg".data, "kN".data, "kW".data,
   "mAh".data, "mA".data]

/-- Rule stripping a leading unit abbreviation (line 70). -/
def ruleA (t : Str) : Option Str := ruleA_alts.findSome? (litThenWs · t)

/-- Character class `[\d\s,./xGX×:+-]` of the dimension rule (line 78). -/
def leadClassB (c : Char) : Bool :=
  c.isDigit || isWs c || c = ',' || c = '.' || c = '/' || c = 'x' || c = 'G' ||
    c = 'X' || c = '×' || c = ':' || c = '+' || c = '-'

/-- Character class `[\d\s,.²/]` of the dimension rule's trailing part (line 80). -/
def trailClassB (c : Char) : Bool :=
  c.isDigit || isWs c || c = ',' || c = '.' || c = '²' || c = '/'

/-- `\b` test against the character following the current position. -/
def boundaryAfter : Str → Bool
  | [] => true
  | c :: _ => !isWordChar c

/-- Unit alternatives `mm²|mm|cm|m\b|kW|kN|W\b|V\b|A\b|°C|lm|kg|mAh|mA|K\b`
(line 79), the flag marking the alternatives guarded by `\b`. -/
def unitAltsB : List (Str × Bool) :=
  [("mm²".data, false), ("mm".data, false), ("cm".data, false), ("m".data, true),
   ("kW".data, false), ("kN".data, false), ("W".data, true), ("V".data, true),
   ("A".data, true), ("°C".data, false), ("lm".data, false), ("kg".data, false),
   ("mAh".data, false), ("mA".data, false), ("K".data, true)]

/-- First unit alternative matching at the start of `s`, with its length.
(No unit starts with a character of `leadClassB`, so the greedy leading class
never needs to backtrack and alternatives are decided left to right.) -/
def firstUnitB (s : Str) : Option Nat :=
  unitAltsB.findSome? fun ub =>
    if ub.1.isPrefixOf s && (!ub.2 || boundaryAfter (s.drop ub.1.length)) then
      some ub.1.length
    else none

/-- Dimension rule `^[\d\s,./xGX×:+-]+(?:…units…)[\d\s,.²/]*` (lines 77-81). -/
def ruleB (t : Str) : Option Str :=
  let lead := t.takeWhile leadClassB
  if lead.length = 0 then none
  else
    match firstUnitB (t.drop lead.length) with
    | some ulen => some (((t.drop lead.length).drop ulen).dropWhile trailClassB)
    | none => none

/-- Rule `^(?:IP\d{2}|DC|AC)\s+` (line 89). -/
def ruleC (t : Str) : Option Str :=
  (match t with
   | 'I' :: 'P' :: d1 :: d2 :: r =>
     if d1.isDigit && d2.isDigit && wsHead r then some (r.dropWhile isWs) else none
   | _ => none)
  <|> litThenWs "DC".data t <|> litThenWs "AC".data t

/-- Character class `[\d,.]`. -/
def isNumComma (c : Char) : Bool := c.isDigit || c = ',' || c = '.'

/-- Lamp-base rule `^E\d{1,2}\s+[\d,.]+\s*W\s+\d+\s*K\s+` (line 96).  All the
class pairs are disjoint, so greedy maximal runs need no backtracking (a digit
run of length three or more makes `\d{1,2}\s+` fail at every split). -/
def ruleD (t : Str) : Option Str :=
  match t with
  | 'E' :: r0 =>
    let ds := r0.takeWhile Char.isDigit
    if ds.length = 1 ∨ ds.length = 2 then
      let r1 := r0.drop ds.length
      if wsHead r1 then
        let r2 := r1.dropWhile isWs
        let num := r2.takeWhile isNumComma
        if num.length = 0 then none
        else
          match (r2.drop num.length).dropWhile isWs with
          | 'W' :: r3 =>
            if wsHead r3 then
              let r4 := r3.dropWhile isWs
              let ds2 := r4.takeWhile Char.isDigit
              if ds2.length = 0 then none
              else
                match (r4.drop ds2.length).dropWhile isWs with
                | 'K' :: r5 => if wsHead r5 then some (r5.dropWhile isWs) else none
                | _ => none
            else none
          | _ => none
      else none
    else none
  | _ => none

/-- Short-number rule `^(\d{1,4})\s+` (line 103): a digit run of length five or
more fails at every split, so the rule fires exactly when the maximal digit run
has length one to four and is followed by whitespace. -/
def ruleE (t : Str) : Option Str :=
  let ds := t.takeWhile Char.isDigit
  if 1 ≤ ds.length ∧ ds.length ≤ 4 ∧ wsHead (t.drop ds.length) = true then
    some ((t.drop ds.length).dropWhile isWs)
  else none

/-- Punctuation rule: `text[0] in ".!,;:"` then `text[1:].lstrip()` (lines 110-111). -/
def ruleF (t : Str) : Option Str :=
  match t with
  | c :: cs =>
    if c = '.' ∨ c = '!' ∨ c = ',' ∨ c = ';' ∨ c = ':' then some (cs.dropWhile isWs)
    else none
  | [] => none

/-- Single-uppercase rule `^[A-Z]\s+` (line 116). -/
def ruleG (t : Str) : Option Str :=
  match t with
  | c :: cs =>
    if c.isUpper && wsHead cs then some (cs.dropWhile isWs) else none
  | [] => none

/-- Python `str.lower` restricted to ASCII and the Swedish letters. -/
def lowerSw (c : Char) : Char :=
  if c = 'Å' then 'å' else if c = 'Ä' then 'ä' else if c = 'Ö' then 'ö'
  else c.toLower

/-- The residual-word list of `scrape_ahlsell.py` (lines 32-37), in order. -/
def RESIDUAL_WORDS : List Str :=
  ["trumma".data, "bobin".data, "box".data, "kartong".data, "kapad".data,
   "svart".data, "grön".data, "gul".data, "vit".data, "röd".data,
   "antracit".data, "grå".data, "platt".data, "plan".data, "nej".data,
   "ja".data, "stål".data, "plast".data, "metall".data, "rörelsesensor".data]

/-- Residual-word rule (lines 122-127): first word of the list whose
lower-cased form prefixes the lower-cased text followed by a space or slash;
the word's length is dropped from the original text and `lstrip(" /")` applied. -/
def ruleH (t : Str) : Option Str :=
  let lw := t.map lowerSw
  RESIDUAL_WORDS.findSome? fun w =>
    if (w ++ [' ']).isPrefixOf lw || (w ++ ['/']).isPrefixOf lw then
      some ((t.drop w.length).dropWhile fun c => c = ' ' || c = '/')
    else none

/-- Character class `[A-Za-z0-9]` heading the model-code rule (line 132). -/
def isC1head (c : Char) : Bool := c.isAlphanum

/-- Character class `[A-Za-z0-9/_.-]` of the model-code rule (line 132). -/
def isC1 (c : Char) : Bool := c.isAlphanum || c = '/' || c = '_' || c = '.' || c = '-'

/-- Optional parenthetical `(?:\s*\([^)]*\))?` of the model-code rule (line 133). -/
def tryParen (q : Str) : Option Str :=
  match q.dropWhile isWs with
  | '(' :: r =>
    match r.dropWhile (fun c => !(c = ')')) with
    | ')' :: r2 => some r2
    | _ => none
  | _ => none

/-- Unit alternatives `(?:V|A|W|mm²?|m)` of the model-code rule (line 134),
all followed by `\b`. -/
def uAlts : List Str := ["V".data, "A".data, "W".data, "mm²".data, "mm".data, "m".data]

/-- One numeric-with-unit group `\s+[\d,.]+\s*(?:V|A|W|mm²?|m)\b` (line 134). -/
def parseOneU (q : Str) : Option Str :=
  if wsHead q then
    let r1 := q.dropWhile isWs
    let num := r1.takeWhile isNumComma
    if num.length = 0 then none
    else
      let r2 := (r1.drop num.length).dropWhile isWs
      uAlts.findSome? fun u =>
        if u.isPrefixOf r2 && boundaryAfter (r2.drop u.length) then
          some (r2.drop u.length)
        else none
  else none

/-- `(?:\s+[\d,.]+\s*(?:V|A|W|mm²?|m)\b)*\s+`: greedily parse unit groups, and
on failure of the final `\s+` give the last group back (its own `\s+` then
serves as the final one).  Returns the text after the regex's match end. -/
def uChainEnd : Nat → Str → Option Str
  | 0, q => if wsHead q then some (q.dropWhile isWs) else none
  | n + 1, q =>
    match parseOneU q with
    | some q' =>
      match uChainEnd n q' with
      | some r => some r
      | none => if wsHead q then some (q.dropWhile isWs) else none
    | none => if wsHead q then some (q.dropWhile isWs) else none

/-- Match of the model-code regex
`^[A-Za-z0-9][A-Za-z0-9/_.-]{0,20}(?:\s*\([^)]*\))?(?:…unit groups…)*\s+`
(lines 131-137), returning the text after the match end.  A class run longer
than 20 makes every continuation fail (the followers all need whitespace or a
parenthesis, neither of which is a class character), and the optional
parenthetical falls back to absence when the continuation fails after it. -/
def ruleIMatchRest (t : Str) : Option Str :=
  match t with
  | [] => none
  | c :: cs =>
    if isC1head c then
      let run := cs.takeWhile isC1
      if 20 < run.length then none
      else
        let afterHead := cs.drop run.length
        match tryParen afterHead with
        | some afterG =>
          match uChainEnd afterG.length afterG with
          | some r => some r
          | none => uChainEnd afterHead.length afterHead
        | none => uChainEnd afterHead.length afterHead
    else none

/-- `[A-ZÅÄÖ]`. -/
def isUpperSw (c : Char) : Bool := c.isUpper || c = 'Å' || c = 'Ä' || c = 'Ö'

/-- `[a-zåäö]`. -/
def isLowerSw (c : Char) : Bool := c.isLower || c = 'å' || c = 'ä' || c = 'ö'

/-- Model-code rule (lines 129-143): fires only when the text after the match,
stripped, starts with a capitalized word of four or more letters
(`^([A-ZÅÄÖ][a-zåäö]{3,})`) that is not a residual word; the new text is that
stripped remainder. -/
def ruleI (t : Str) : Option Str :=
  match ruleIMatchRest t with
  | none => none
  | some rest0 =>
    let rest := strip rest0
    match rest with
    | c :: cs =>
      if isUpperSw c then
        let run := cs.takeWhile isLowerSw
        if 3 ≤ run.length then
          if (c :: run).map lowerSw ∈ RESIDUAL_WORDS then none else some rest
        else none
      else none
    | [] => none

/-- One iteration of the stripping loop of `clean_product_name` (lines 62-143):
the rules are tried in the source's order, the model-code rule only when no
other rule fired. -/
def ruleStep (t : Str) : Option Str :=
  ruleA t <|> ruleB t <|> ruleC t <|> ruleD t <|> ruleE t <|> ruleF t <|>
    ruleG t <|> ruleH t <|> ruleI t

/-- The stripping loop (`while changed and iterations < 50`, lines 61-143):
each pass strips the text, stops on empty text or when no rule fires, and the
iteration counter bounds the number of passes to 50. -/
def cleanLoop : Nat → Str → Str
  | 0, t => t
  | n + 1, t =>
    let s := strip t
    if s = [] then s
    else
      match ruleStep s with
      | some t' => cleanLoop n t'
      | none => s

/-- Truncation at the first period when it occurs beyond index 5 (lines 145-148). -/
def periodTrunc (t : Str) : Str :=
  match t.findIdx? (fun c => c = '.') with
  | some i => if 5 < i then strip (t.take i) else t
  | none => t

/-- Python `str.split()` (no separator): maximal non-whitespace runs. -/
def wordsGo (cur : Str) : Str → List Str
  | [] => if cur = [] then [] else [cur.reverse]
  | c :: cs =>
    if isWs c then
      if cur = [] then wordsGo [] cs else cur.reverse :: wordsGo [] cs
    else wordsGo (c :: cur) cs

/-- Python `text.split()`. -/
def wordsOf (s : Str) : List Str := wordsGo [] s

/-- The greedy whole-word accumulation of lines 152-159 (`length` counter
starts at 0, each kept word costs its length plus one). -/
def truncGo (len : Nat) : List Str → List Str
  | [] => []
  | w :: ws =>
    if 150 < len + w.length + 1 then []
    else w :: truncGo (len + w.length + 1) ws

/-- Python `" ".join(words)`. -/
def joinWords : List Str → Str
  | [] => []
  | w :: ws =>
    match ws with
    | [] => w
    | _ => w ++ ' ' :: joinWords ws

/-- Truncation of over-long names (lines 150-160). -/
def lengthTrunc (t : Str) : Str :=
  if 150 < t.length then joinWords (truncGo 0 (wordsOf t)) else t

/-- `clean_product_name` (lines 50-162): strip, remove the boilerplate phrase,
run the stripping loop at most 50 times, truncate at the first late period,
truncate over-long names to whole words, and strip. -/
def clean_product_name (raw : Str) : Str :=
  if strip raw = [] then []
  else
    strip (lengthTrunc (periodTrunc
      (cleanLoop 50 (lasSubAll (strip raw).length (strip raw)))))

/-! ## Section parser (`parse_catalog`, lines 165-254) -/

/-- A match of the article-number regex `\b(\d{7})E?\b` (line 179): start and
end position of the whole match, and the captured 7-digit group. -/
structure ArtMatch where
  start : Nat
  stop : Nat
  grp : Str
deriving DecidableEq, Repr

/-- Attempted match of `\b(\d{7})E?\b` at the current position; `prevWord` says
whether the preceding character is a word character.  The optional `E` is
greedy, and when the boundary after it fails the empty alternative also fails
(the `E` itself is a word character). -/
def artHere (prevWord : Bool) (s : Str) : Option (Nat × Str) :=
  if prevWord then none
  else
    if (s.take 7).length = 7 ∧ (s.take 7).all Char.isDigit = true then
      match s.drop 7 with
      | 'E' :: rest => if boundaryAfter rest then some (8, s.take 7) else none
      | rest => if boundaryAfter rest then some (7, s.take 7) else none
    else none

/-- `finditer` of the article-number regex: left-to-right scan producing
non-overlapping matches; fuel is the length of the text. -/
def artScan : Nat → Bool → Nat → Str → List ArtMatch
  | 0, _, _, _ => []
  | _ + 1, _, _, [] => []
  | n + 1, prevWord, pos, c :: cs =>
    match artHere prevWord (c :: cs) with
    | some lg =>
      ⟨pos, pos + lg.1, lg.2⟩ ::
        artScan n true (pos + lg.1) ((c :: cs).drop lg.1)
    | none => artScan n (isWordChar c) (pos + 1) cs

/-- `list(art_re.finditer(s))` (line 203). -/
def art_matches (s : Str) : List ArtMatch := artScan s.length false 0 s

/-- End of the last article-number match in the name section, 0 when there is
none (lines 187-189). -/
def lastArtEnd (ns : Str) : Nat :=
  match (art_matches ns).getLast? with
  | some m => m.stop
  | none => 0

/-- The cleaned name a section yields (lines 191-192): the text after the
section's last article number, run through `clean_product_name`. -/
def sectionName (ns : Str) : Str := clean_product_name (ns.drop (lastArtEnd ns))

/-- The name-update step of one loop iteration (lines 194-197): a cleaned name
of fewer than 3 characters falls back to the running value, otherwise the
cleaned name becomes the row name and the new running value. -/
def nameStep (last : Str) (ns : Str) : Str :=
  if (sectionName ns).length < 3 then last else sectionName ns

/-- One product row (output dict of lines 247-252). -/
structure ProductRow where
  artikelnummer : Str
  benamning : Str
  kolumnrubriker : Str
  specifikationer : Str
deriving DecidableEq, Repr

/-- `re.sub(r"\d*\s*Läs mer om produkterna på ahlsell\.se.*", "", s)` (lines
228-230): the leftmost position at which `\d*\s*` followed by the boilerplate
phrase matches.  `lasCutWs` consumes optional whitespace then the literal,
`lasCutHere` optional digits first. -/
def lasCutWs : Str → Bool
  | [] => lasLit.isPrefixOf []
  | c :: cs => lasLit.isPrefixOf (c :: cs) || (isWs c && lasCutWs cs)

def lasCutHere : Str → Bool
  | [] => lasCutWs []
  | c :: cs => lasCutWs (c :: cs) || (c.isDigit && lasCutHere cs)

/-- Index of the leftmost match start, if any. -/
def lasCutIdx : Nat → Str → Option Nat
  | _, [] => if lasCutHere [] then some 0 else none
  | i, c :: cs => if lasCutHere (c :: cs) then some i else lasCutIdx (i + 1) cs

/-- The substitution applied to a spec text: it has no newline (whitespace was
collapsed), so `.*` runs to the end and the result is the text before the
leftmost match. -/
def lasCut (s : Str) : Str :=
  match lasCutIdx 0 s with
  | some i => s.take i
  | none => s

/-- Scan for `\b([A-ZÅÄÖ][a-zåäö]{4,})\b` (lines 238-240), returning the start
index of the leftmost match: an upper-case letter at a word boundary whose
maximal lower-case run has length at least 4 and ends at a word boundary. -/
def capScan : Bool → Nat → Str → Option Nat
  | _, _, [] => none
  | prevWord, i, c :: cs =>
    if !prevWord && isUpperSw c && decide (4 ≤ (cs.takeWhile isLowerSw).length)
        && boundaryAfter (cs.dropWhile isLowerSw) then some i
    else capScan (isWordChar c) (i + 1) cs

/-- `re.search(r"\b([A-ZÅÄÖ][a-zåäö]{4,})\b", t)`, start index of the match. -/
def capWordIdx (t : Str) : Option Nat := capScan false 0 t

/-- The trim applied to the last occurrence's spec text (lines 236-245): keep
the stripped portion before the first capitalized word when it has at least 2
characters. -/
def trimCap (t : Str) : Str :=
  match capWordIdx t with
  | none => t
  | some i =>
    if 2 ≤ (strip (t.take i)).length then strip (t.take i) else t

/-- Final conditional of the spec-text pipeline (line 236): the trim runs only
for the last occurrence and only when the text exceeds 30 characters. -/
def specFinish (isLast : Bool) (t : Str) : Str :=
  if isLast ∧ 30 < t.length then trimCap t else t

/-- The spec-text pipeline for one occurrence (lines 223-245): strip the raw
slice, collapse whitespace, cut the boilerplate phrase, then the last-occurrence
trim. -/
def specPipe (isLast : Bool) (slice : Str) : Str :=
  specFinish isLast (strip (lasCut (strip (collapseWs (strip slice)))))

/-- Column headers: the data section before the first article number, stripped
and whitespace-collapsed (lines 208-210). -/
def colHeaders (ds : Str) (start : Nat) : Str :=
  strip (collapseWs (strip (ds.take start)))

/-- The row-emission loop over the article-number matches of a data section
(lines 214-252): each row's spec text is the slice up to the next match's
start, the last row's the slice to the end of the section. -/
def emitRows (ds : Str) (pn ch : Str) : List ArtMatch → List ProductRow
  | [] => []
  | [m] => [⟨m.grp, pn, ch, specPipe true (ds.drop m.stop)⟩]
  | m :: m' :: rest =>
    ⟨m.grp, pn, ch, specPipe false ((ds.take m'.start).drop m.stop)⟩ ::
      emitRows ds pn ch (m' :: rest)

/-- One iteration of the section loop (lines 184-252): update the running name
from the name section, then emit one row per article number of the data
section (none when it has no article numbers).  Returns the emitted rows and
the running name after the iteration. -/
def processPair (last : Str) (ns ds : Str) : List ProductRow × Str :=
  match art_matches ds with
  | [] => ([], nameStep last ns)
  | m0 :: ms =>
    (emitRows ds (nameStep last ns) (colHeaders ds m0.start) (m0 :: ms),
      nameStep last ns)

/-- The section loop over all adjacent pairs, threading the running name. -/
def parseGoPairs : Str → List (Str × Str) → List ProductRow
  | _, [] => []
  | last, p :: rest =>
    (processPair last p.1 p.2).1 ++
      parseGoPairs (processPair last p.1 p.2).2 rest

/-- Adjacent pairs `(sections[i], sections[i+1])` (line 184). -/
def pairsOf (secs : List Str) : List (Str × Str) := secs.zip secs.tail

/-- The split marker `"Artikel Nr"` (line 176). -/
def artikelNrLit : Str := "Artikel Nr".data

/-- Python `str.split(sep)` for a non-empty separator: left-to-right
non-overlapping splits; fuel is the length of the text. -/
def splitGo (lit : Str) : Nat → Str → Str → List Str
  | 0, acc, s => [acc.reverse ++ s]
  | n + 1, acc, s =>
    match s with
    | [] => [acc.reverse]
    | c :: cs =>
      if lit.isPrefixOf (c :: cs) then
        acc.reverse :: splitGo lit n [] ((c :: cs).drop lit.length)
      else splitGo lit n (c :: acc) cs

/-- `full_text.split("Artikel Nr")` (line 176). -/
def splitOnLit (lit : Str) (s : Str) : List Str := splitGo lit s.length [] s

/-- The sections of a page list (lines 171-176): drop the cover and back pages
when there are more than two pages, join with a single space, split on the
marker. -/
def sectionsOf (pages : List Str) : List Str :=
  splitOnLit artikelNrLit
    (joinWords (if 2 < pages.length then (pages.drop 1).dropLast else pages))

/-- `parse_catalog` (lines 165-254). -/
def parse_catalog (pages : List Str) : List ProductRow :=
  parseGoPairs [] (pairsOf (sectionsOf pages))

/-! ## Deduplication (`main`, lines 312-319) -/

/-- The dedup loop of `main` (lines 313-318): `seen` is the set of article
numbers already kept, rows with a seen number are dropped, others appended and
their number added to `seen`. -/
def dedupGo (seen : List Str) : List ProductRow → List ProductRow
  | [] => []
  | r :: rs =>
    if r.artikelnummer ∈ seen then dedupGo seen rs
    else r :: dedupGo (r.artikelnummer :: seen) rs

/-- Deduplication by article number, first occurrence kept. -/
def dedup_rows (rows : List ProductRow) : List ProductRow := dedupGo [] rows

/-! ## Invoice arithmetic (`vvs_invoice_app.py`, lines 73-128), amounts
idealised as rationals. -/

/-- The labor category label `'ARBETE'` (line 109). -/
def ARBETE : Str := "ARBETE".data

/-- An invoice line item: only the fields the totals computation reads. -/
structure InvoiceItem where
  kategori : Str
  summa : ℚ
deriving DecidableEq

/-- `belopp_incl_moms = belopp_excl_moms * 1.25` (line 97). -/
def belopp_incl_moms (it : InvoiceItem) : ℚ := it.summa * (5 / 4)

/-- `calculate_rot_deduction` (lines 73-75) at its default percentage 30. -/
def calculate_rot_deduction (x : ℚ) : ℚ := x * (30 / 100)

/-- One pass of the accumulation loop of `generate_invoice_text` (lines
94-112): running `(total_excl_moms, total_incl_moms, labor_total_incl_moms)`. -/
def invoiceStep (acc : ℚ × ℚ × ℚ) (it : InvoiceItem) : ℚ × ℚ × ℚ :=
  (acc.1 + it.summa, acc.2.1 + belopp_incl_moms it,
    if it.kategori = ARBETE then acc.2.2 + belopp_incl_moms it else acc.2.2)

/-- The three running totals after the loop. -/
def invoice_totals (items : List InvoiceItem) : ℚ × ℚ × ℚ :=
  items.foldl invoiceStep (0, 0, 0)

/-- The rendered `FAKTURA TOTAL` (lines 119-126): the ROT deduction is
subtracted only when the labor subtotal is positive. -/
def faktura_total (items : List InvoiceItem) : ℚ :=
  if 0 < (invoice_totals items).2.2 then
    (invoice_totals items).2.1 - calculate_rot_deduction (invoice_totals items).2.2
  else (invoice_totals items).2.1

/-- Sum of the line amounts. -/
def sumSumma (items : List InvoiceItem) : ℚ := (items.map (·.summa)).sum

/-- Sum of the line amounts of the labor lines. -/
def laborSumma (items : List InvoiceItem) : ℚ :=
  sumSumma (items.filter fun it => decide (it.kategori = ARBETE))

/-! ## Auxiliary definitions used by the statements -/

/-- The running name after processing a list of pairs' name sections, starting
from `prev` (the threading of `last_good_name` through the loop). -/
def foldNameStep (prev : Str) (pre : List (Str × Str)) : Str :=
  pre.foldl (fun st q => nameStep st q.1) prev

/-- A string on which every stage of `clean_product_name` is the identity:
already stripped, free of the boilerplate phrase, matched by no stripping rule,
and unchanged by the period and length truncations. -/
def isStableClean (r : Str) : Bool :=
  decide (strip r = r) && decide (lasSubAll r.length r = r) &&
    (ruleStep r).isNone && decide (periodTrunc r = r) &&
    decide (lengthTrunc r = r)

/-! Concrete inputs used by witnesses and counterexamples. -/

/-- Document whose first data section has no article number but whose first
name section yields a usable name. -/
def d1 : Str := "FooWidget Artikel Nr .. Artikel Nr 1234567 rest".data

/-- The spec's C2 scenario verbatim, with suffix letter `A`. -/
def d2 : Str :=
  "1234567 FooWidget Artikel Nr Size Color 1234567A 10 mm red Artikel Nr tail".data

/-- The C2 scenario with the suffix letter `E` actually recognised by `art_re`. -/
def d2E : Str :=
  "1234567 FooWidget Artikel Nr Size Color 1234567E 10 mm red Artikel Nr tail".data

/-- Document whose single data section ends in a long spec text that starts
with a capitalized word. -/
def d9 : Str := "Name Artikel Nr hdr 1234567 Abcdefghij klmnopqrst uvwxyz abc".data

/-- A collapsed spec text longer than 30 characters whose first capitalized
word is at index 0. -/
def t9bad : Str := "Abcdefghij klmnopqrst uvwxyz abc".data

/-- A collapsed spec text longer than 30 characters whose first capitalized
word is at index 21, preceded by a non-trivial portion. -/
def t9good : Str := "12 34 56 78 90 12 34 Abcdefgh xyz".data

/-- Fifty-five short page-number tokens followed by a name: one more token
than the stripping loop's iteration bound can remove. -/
def c6input : Str := (List.replicate 55 ['1', ' ']).flatten ++ "Name".data

/-- The spec's C8 input. -/
def c8input : Str := "10 mm² 3x1,5 Kabel XYZ123 Skarvdosa".data

/-- Rows with a repeated article number and differing fields, for the
deduplication witness. -/
def rows3 : List ProductRow :=
  [⟨"1111111".data, "Alpha".data, "H1".data, "s1".data⟩,
   ⟨"2222222".data, "Beta".data, "H2".data, "s2".data⟩,
   ⟨"1111111".data, "Gamma".data, "H3".data, "s3".data⟩]

/-- The row `parse_catalog` emits for `d1`. -/
def c5row : ProductRow := ⟨"1234567".data, "FooWidget".data, [], "rest".data⟩

/-! ## Helper lemmas -/

theorem dropWhile_len_le (p : Char → Bool) (l : Str) :
    (l.dropWhile p).length ≤ l.length := by
  induction l with
  | nil => simp
  | cons c cs ih =>
    by_cases h : p c
    · rw [List.dropWhile_cons, if_pos h]
      simp only [List.length_cons]
      omega
    · simp [List.dropWhile_cons, h]

theorem strip_length_le (s : Str) : (strip s).length ≤ s.length := by
  unfold strip
  rw [List.length_reverse]
  refine le_trans (dropWhile_len_le _ _) ?_
  rw [List.length_reverse]
  exact dropWhile_len_le _ _

theorem joinWords_cons (w x : Str) (xs : List Str) :
    joinWords (w :: x :: xs) = w ++ ' ' :: joinWords (x :: xs) := rfl

theorem truncGo_join_bound (ws : List Str) : ∀ n : Nat,
    truncGo n ws = [] ∨ (joinWords (truncGo n ws)).length + n ≤ 150 := by
  induction ws with
  | nil => intro n; left; rfl
  | cons w ws ih =>
    intro n
    by_cases h : 150 < n + w.length + 1
    · left; simp [truncGo, h]
    · right
      simp only [truncGo, if_neg h]
      rcases ih (n + w.length + 1) with h2 | h2
      · rw [h2]; simp [joinWords]; omega
      · cases hrest : truncGo (n + w.length + 1) ws with
        | nil => simp [joinWords]; omega
        | cons r rs =>
          rw [hrest] at h2
          rw [joinWords_cons]
          simp only [List.length_append, List.length_cons]
          omega

theorem artHere_grp {b : Bool} {s g : Str} {len : Nat}
    (h : artHere b s = some (len, g)) :
    g.length = 7 ∧ g.all Char.isDigit = true := by
  unfold artHere at h
  split at h
  · simp at h
  · split at h
    · next hg =>
      split at h
      · split at h
        · cases h; exact hg
        · simp at h
      · split at h
        · cases h; exact hg
        · simp at h
    · simp at h

theorem artScan_grp : ∀ (n : Nat) (b : Bool) (pos : Nat) (s : Str) (m : ArtMatch),
    m ∈ artScan n b pos s → m.grp.length = 7 ∧ m.grp.all Char.isDigit = true := by
  intro n
  induction n with
  | zero => intro b pos s m h; simp [artScan] at h
  | succ n ih =>
    intro b pos s m h
    match s with
    | [] => simp [artScan] at h
    | c :: cs =>
      rw [artScan] at h
      cases hh : artHere b (c :: cs) with
      | some lg =>
        rw [hh] at h
        rcases List.mem_cons.mp h with rfl | h2
        · exact artHere_grp (by rw [hh])
        · exact ih _ _ _ _ h2
      | none =>
        rw [hh] at h
        exact ih _ _ _ _ h

theorem emitRows_mem : ∀ (ms : List ArtMatch) (ds pn ch : Str) (r : ProductRow),
    r ∈ emitRows ds pn ch ms →
    (∃ m ∈ ms, r.artikelnummer = m.grp) ∧ r.benamning = pn ∧ r.kolumnrubriker = ch := by
  intro ms
  induction ms with
  | nil => intro ds pn ch r h; simp [emitRows] at h
  | cons m tail ih =>
    intro ds pn ch r h
    cases tail with
    | nil =>
      simp only [emitRows, List.mem_singleton] at h
      subst h
      exact ⟨⟨m, List.mem_singleton_self m, rfl⟩, rfl, rfl⟩
    | cons m' rest =>
      rw [emitRows] at h
      rcases List.mem_cons.mp h with rfl | h2
      · exact ⟨⟨m, List.mem_cons_self .., rfl⟩, rfl, rfl⟩
      · obtain ⟨⟨mm, hmm, he⟩, hb, hc⟩ := ih ds pn ch r h2
        exact ⟨⟨mm, List.mem_cons_of_mem _ hmm, he⟩, hb, hc⟩

theorem processPair_snd (last ns ds : Str) :
    (processPair last ns ds).2 = nameStep last ns := by
  unfold processPair
  split <;> rfl

theorem processPair_fst_mem {last ns ds : Str} {r : ProductRow}
    (h : r ∈ (processPair last ns ds).1) :
    (∃ m ∈ art_matches ds, r.artikelnummer = m.grp) ∧ r.benamning = nameStep last ns := by
  unfold processPair at h
  split at h
  · simp at h
  · next m0 ms heq =>
    obtain ⟨⟨m, hm, he⟩, hb, -⟩ := emitRows_mem _ _ _ _ _ h
    exact ⟨⟨m, heq ▸ hm, he⟩, hb⟩

theorem mem_parseGoPairs : ∀ (pairs : List (Str × Str)) (prev : Str) (r : ProductRow),
    r ∈ parseGoPairs prev pairs →
    ∃ pre p post, pairs = pre ++ p :: post ∧
      r ∈ (processPair (foldNameStep prev pre) p.1 p.2).1 := by
  intro pairs
  induction pairs with
  | nil => intro prev r h; simp [parseGoPairs] at h
  | cons q rest ih =>
    intro prev r h
    rw [parseGoPairs] at h
    rcases List.mem_append.mp h with h1 | h2
    · exact ⟨[], q, rest, rfl, by simpa [foldNameStep] using h1⟩
    · obtain ⟨pre, p, post, heq, hm⟩ := ih _ r h2
      refine ⟨q :: pre, p, post, by simp [heq], ?_⟩
      rw [foldNameStep, List.foldl_cons]
      rw [foldNameStep, processPair_snd] at hm
      exact hm

theorem nameStep_eq_nil {last ns : Str} (h : nameStep last ns = []) :
    last = [] ∧ (sectionName ns).length < 3 := by
  unfold nameStep at h
  split at h
  · next hlt => exact ⟨h, hlt⟩
  · next hge => exact absurd (h ▸ hge) (by simp)

theorem foldNameStep_eq_nil : ∀ (pre : List (Str × Str)) (prev : Str),
    foldNameStep prev pre = [] →
    prev = [] ∧ ∀ q ∈ pre, (sectionName q.1).length < 3 := by
  intro pre
  induction pre with
  | nil => intro prev h; exact ⟨h, by simp⟩
  | cons q pre ih =>
    intro prev h
    rw [foldNameStep, List.foldl_cons] at h
    obtain ⟨h1, h2⟩ := ih _ h
    obtain ⟨h3, h4⟩ := nameStep_eq_nil h1
    refine ⟨h3, ?_⟩
    intro x hx
    rcases List.mem_cons.mp hx with rfl | hx
    · exact h4
    · exact h2 x hx

theorem dedupGo_sublist : ∀ (rows : List ProductRow) (seen : List Str),
    List.Sublist (dedupGo seen rows) rows := by
  intro rows
  induction rows with
  | nil => intro seen; simp [dedupGo]
  | cons r rs ih =>
    intro seen
    rw [dedupGo]
    split
    · exact (ih seen).cons r
    · exact (ih (r.artikelnummer :: seen)).cons₂ r

theorem dedupGo_not_seen : ∀ (rows : List ProductRow) (seen : List Str)
    (u : ProductRow), u ∈ dedupGo seen rows → u.artikelnummer ∉ seen := by
  intro rows
  induction rows with
  | nil => intro seen u h; simp [dedupGo] at h
  | cons r rs ih =>
    intro seen u h
    rw [dedupGo] at h
    split at h
    · exact ih seen u h
    · rcases List.mem_cons.mp h with rfl | h2
      · next hns => exact hns
      · intro hmem
        exact ih _ u h2 (List.mem_cons_of_mem _ hmem)

theorem dedupGo_nodup : ∀ (rows : List ProductRow) (seen : List Str),
    ((dedupGo seen rows).map (·.artikelnummer)).Nodup := by
  intro rows
  induction rows with
  | nil => intro seen; simp [dedupGo]
  | cons r rs ih =>
    intro seen
    rw [dedupGo]
    split
    · exact ih seen
    · rw [List.map_cons, List.nodup_cons]
      refine ⟨?_, ih _⟩
      intro hmem
      obtain ⟨u, hu, he⟩ := List.mem_map.mp hmem
      exact dedupGo_not_seen _ _ _ hu (he ▸ List.mem_cons_self ..)

theorem dedupGo_covers : ∀ (rows : List ProductRow) (seen : List Str)
    (r : ProductRow), r ∈ rows →
    r.artikelnummer ∈ seen ∨
      ∃ u ∈ dedupGo seen rows, u.artikelnummer = r.artikelnummer := by
  intro rows
  induction rows with
  | nil => intro seen r h; simp at h
  | cons r0 rs ih =>
    intro seen r h
    rw [dedupGo]
    rcases List.mem_cons.mp h with rfl | h2
    · split
      · next hs => exact Or.inl hs
      · exact Or.inr ⟨r, List.mem_cons_self .., rfl⟩
    · split
      · exact ih seen r h2
      · rcases ih (r0.artikelnummer :: seen) r h2 with hs | ⟨u, hu, he⟩
        · rcases List.mem_cons.mp hs with he0 | hs2
          · exact Or.inr ⟨r0, List.mem_cons_self .., he0.symm⟩
          · exact Or.inl hs2
        · exact Or.inr ⟨u, List.mem_cons_of_mem _ hu, he⟩

theorem dedupGo_find : ∀ (rows : List ProductRow) (seen : List Str)
    (u : ProductRow), u ∈ dedupGo seen rows →
    rows.find? (fun x => decide (x.artikelnummer = u.artikelnummer)) = some u := by
  intro rows
  induction rows with
  | nil => intro seen u h; simp [dedupGo] at h
  | cons r rs ih =>
    intro seen u h
    rw [dedupGo] at h
    split at h
    · next hs =>
      have hne : u.artikelnummer ≠ r.artikelnummer := by
        intro he
        exact dedupGo_not_seen _ _ _ h (he ▸ hs)
      rw [List.find?_cons_of_neg _ (by simpa using fun he => hne he.symm)]
      exact ih seen u h
    · next hns =>
      rcases List.mem_cons.mp h with rfl | h2
      · exact List.find?_cons_of_pos _ (by simp)
      · have hnotin := dedupGo_not_seen _ _ _ h2
        have hne : u.artikelnummer ≠ r.artikelnummer := by
          intro he
          exact hnotin (he ▸ List.mem_cons_self ..)
        rw [List.find?_cons_of_neg _ (by simpa using fun he => hne he.symm)]
        exact ih _ u h2

theorem invoice_foldl (items : List InvoiceItem) : ∀ acc : ℚ × ℚ × ℚ,
    items.foldl invoiceStep acc =
      (acc.1 + sumSumma items, acc.2.1 + (5 / 4) * sumSumma items,
        acc.2.2 + (5 / 4) * laborSumma items) := by
  induction items with
  | nil => intro acc; simp [sumSumma, laborSumma]
  | cons it items ih =>
    intro acc
    have hsum : sumSumma (it :: items) = it.summa + sumSumma items := by
      simp [sumSumma]
    rw [List.foldl_cons, ih]
    by_cases h : it.kategori = ARBETE
    · have hlab : laborSumma (it :: items) = it.summa + laborSumma items := by
        simp [laborSumma, sumSumma, List.filter_cons, h]
      simp only [invoiceStep, belopp_incl_moms, if_pos h, hsum, hlab, Prod.mk.injEq]
      refine ⟨by ring, by ring, by ring⟩
    · have hlab : laborSumma (it :: items) = laborSumma items := by
        simp [laborSumma, sumSumma, List.filter_cons, h]
      simp only [invoiceStep, belopp_incl_moms, if_neg h, hsum, hlab, Prod.mk.injEq]
      refine ⟨by ring, by ring, trivial⟩

theorem cleanLoop_stable {t : Str} (h1 : strip t = t) (h2 : ruleStep t = none)
    (h3 : t ≠ []) : ∀ n : Nat, cleanLoop n t = t := by
  intro n
  cases n with
  | zero => rfl
  | succ n => simp only [cleanLoop, h1, if_neg h3, h2]

/-! ## Claim theorems -/

/-- C7: for every input string, the string returned by `clean_product_name`
has length at most 150 characters. -/
theorem c7_clean_name_length_le_150 (s : Str) :
    (clean_product_name s).length ≤ 150 := by
  unfold clean_product_name
  split
  · simp
  · refine le_trans (strip_length_le _) ?_
    unfold lengthTrunc
    split
    · rcases truncGo_join_bound
        (wordsOf (periodTrunc (cleanLoop 50
          (lasSubAll (strip s).length (strip s))))) 0 with h2 | h2
      · rw [h2]; simp [joinWords]
      · omega
    · next h => omega

/-- C4: every `ProductRow` emitted by `parse_catalog` has a non-empty
`artikelnummer` consisting of exactly 7 decimal digits. -/
theorem c4_article_number_seven_digits (pages : List Str) (r : ProductRow)
    (h : r ∈ parse_catalog pages) :
    r.artikelnummer.length = 7 ∧ r.artikelnummer.all Char.isDigit = true := by
  obtain ⟨pre, p, post, -, hm⟩ := mem_parseGoPairs _ _ _ h
  obtain ⟨⟨m, hmm, he⟩, -⟩ := processPair_fst_mem hm
  rw [he]
  exact artScan_grp _ _ _ _ _ hmm

/-- Witness for C4 at a concrete document. -/
theorem c4_witness :
    (⟨"1234567".data, "FooWidget".data, "Size Color".data, "10 mm red".data⟩ :
        ProductRow) ∈ parse_catalog [d2E] ∧
      ("1234567".data.length = 7 ∧ "1234567".data.all Char.isDigit = true) :=
  ⟨by decide, c4_article_number_seven_digits [d2E]
    ⟨"1234567".data, "FooWidget".data, "Size Color".data, "10 mm red".data⟩
    (by decide)⟩

/-- C5: each emitted row's name is the cleaned name of its own name section
when that has at least 3 characters (in which case it is also the new running
value), and otherwise the running value threaded through the earlier pairs;
the name is empty only if no section up to and including the row's own name
section cleaned to a name of at least 3 characters. -/
theorem c5_name_rule (pages : List Str) (r : ProductRow)
    (h : r ∈ parse_catalog pages) :
    ∃ pre p post, pairsOf (sectionsOf pages) = pre ++ p :: post ∧
      r.benamning = nameStep (foldNameStep [] pre) p.1 ∧
      (r.benamning = [] →
        (∀ q ∈ pre, (sectionName q.1).length < 3) ∧
          (sectionName p.1).length < 3) := by
  obtain ⟨pre, p, post, heq, hm⟩ := mem_parseGoPairs _ _ _ h
  obtain ⟨-, hb⟩ := processPair_fst_mem hm
  refine ⟨pre, p, post, heq, hb, ?_⟩
  intro hnil
  rw [hb] at hnil
  obtain ⟨h1, h2⟩ := nameStep_eq_nil hnil
  exact ⟨(foldNameStep_eq_nil _ _ h1).2, h2⟩

/-- Witness for C5 at a concrete document (the emitted row's name falls back
to the running value accepted by the first section). -/
theorem c5_witness :
    c5row ∈ parse_catalog [d1] ∧
      (∃ pre p post, pairsOf (sectionsOf [d1]) = pre ++ p :: post ∧
        c5row.benamning = nameStep (foldNameStep [] pre) p.1 ∧
        (c5row.benamning = [] →
          (∀ q ∈ pre, (sectionName q.1).length < 3) ∧
            (sectionName p.1).length < 3)) :=
  ⟨by decide, c5_name_rule [d1] c5row (by decide)⟩

/-- C3: deduplication keeps a subsequence of the input in which each article
number occurs at most once, every input article number is represented, and
each kept row is the first input row carrying its article number. -/
theorem c3_dedup_first_occurrence (rows : List ProductRow) :
    List.Sublist (dedup_rows rows) rows ∧
    ((dedup_rows rows).map (·.artikelnummer)).Nodup ∧
    (∀ r ∈ rows, ∃ u ∈ dedup_rows rows, u.artikelnummer = r.artikelnummer) ∧
    (∀ u ∈ dedup_rows rows,
      rows.find? (fun x => decide (x.artikelnummer = u.artikelnummer)) = some u) := by
  refine ⟨dedupGo_sublist rows [], dedupGo_nodup rows [], ?_, ?_⟩
  · intro r hr
    rcases dedupGo_covers rows [] r hr with hs | h
    · simp at hs
    · exact h
  · intro u hu
    exact dedupGo_find rows [] u hu

/-- Witness for C3 at a concrete row list with a repeated article number. -/
theorem c3_witness :
    dedup_rows rows3 =
      [⟨"1111111".data, "Alpha".data, "H1".data, "s1".data⟩,
       ⟨"2222222".data, "Beta".data, "H2".data, "s2".data⟩] ∧
    (List.Sublist (dedup_rows rows3) rows3 ∧
      ((dedup_rows rows3).map (·.artikelnummer)).Nodup ∧
      (∀ r ∈ rows3, ∃ u ∈ dedup_rows rows3, u.artikelnummer = r.artikelnummer) ∧
      (∀ u ∈ dedup_rows rows3,
        rows3.find? (fun x => decide (x.artikelnummer = u.artikelnummer)) = some u)) :=
  ⟨by decide, c3_dedup_first_occurrence rows3⟩

/-- C10: every line's tax-inclusive amount is 1.25 times the line amount, the
deduction is 30% of the tax-inclusive labor subtotal (lines whose category is
`ARBETE`), and the invoice total subtracts the deduction exactly when the
labor subtotal is positive.  Amounts are idealised as rationals. -/
theorem c10_invoice_totals (items : List InvoiceItem) :
    (∀ it : InvoiceItem, belopp_incl_moms it = (5 / 4) * it.summa) ∧
    (invoice_totals items).2.1 = (5 / 4) * sumSumma items ∧
    (invoice_totals items).2.2 = (5 / 4) * laborSumma items ∧
    calculate_rot_deduction ((invoice_totals items).2.2) =
      (3 / 10) * ((5 / 4) * laborSumma items) ∧
    faktura_total items =
      (if 0 < (5 / 4) * laborSumma items then
        (5 / 4) * sumSumma items - (3 / 10) * ((5 / 4) * laborSumma items)
      else (5 / 4) * sumSumma items) := by
  have h := invoice_foldl items (0, 0, 0)
  have ht : invoice_totals items =
      (sumSumma items, (5 / 4) * sumSumma items, (5 / 4) * laborSumma items) := by
    unfold invoice_totals
    rw [h]
    simp [Prod.mk.injEq]
  refine ⟨fun it => by unfold belopp_incl_moms; ring, by rw [ht], by rw [ht], ?_, ?_⟩
  · rw [ht]
    unfold calculate_rot_deduction
    ring
  · unfold faktura_total calculate_rot_deduction
    rw [ht]
    by_cases hpos : 0 < (5 / 4) * laborSumma items
    · rw [if_pos hpos, if_pos hpos]
      ring
    · rw [if_neg hpos, if_neg hpos]

/-- C1 counterexample: a data section without article numbers yields no rows,
but the running name value is still updated by the pair's name section; in
the document `d1` the update made during the skipped first pair is what names
the later row. -/
theorem c1_counterexample :
    art_matches " .. ".data = [] ∧
    (processPair [] "FooWidget ".data " .. ".data).2 = "FooWidget".data ∧
    "FooWidget".data ≠ ([] : Str) ∧
    parse_catalog [d1] = [c5row] := by decide

/-- C1 (amended): when the data source has no article-number occurrence the
pair emits no rows, and the running name value becomes the result of the
name-update step on the pair's name section (the skip does not prevent the
update). -/
theorem c1_amended (last ns ds : Str) (h : art_matches ds = []) :
    processPair last ns ds = ([], nameStep last ns) := by
  unfold processPair
  rw [h]

/-- Witness for the amended C1. -/
theorem c1_amended_witness :
    art_matches " .. ".data = [] ∧
    processPair [] "FooWidget ".data " .. ".data =
      ([], nameStep [] "FooWidget ".data) ∧
    nameStep [] "FooWidget ".data = "FooWidget".data :=
  ⟨by decide, c1_amended [] "FooWidget ".data " .. ".data (by decide), by decide⟩

/-- C2 counterexample: with the suffix letter `A` of the spec's scenario the
regex `\b(\d{7})E?\b` does not match `1234567A` at all, so the document
yields no row whatsoever. -/
theorem c2_counterexample :
    parse_catalog [d2] = [] ∧ art_matches " 1234567A ".data = [] := by decide

/-- C2 (amended): only the letter `E` is an optional suffix; with `1234567E`
the scenario's row is emitted with the suffix discarded, column headers
`Size Color` and spec text `10 mm red`. -/
theorem c2_amended :
    parse_catalog [d2E] =
      [⟨"1234567".data, "FooWidget".data, "Size Color".data, "10 mm red".data⟩] ∧
    art_matches " 1234567E ".data = [⟨1, 9, "1234567".data⟩] := by decide

/-- C6 counterexample: 55 page-number tokens exceed the stripping loop's
50-iteration bound, so a second application of the cleaner strips further. -/
theorem c6_counterexample :
    clean_product_name c6input = "1 1 1 1 1 Name".data ∧
    clean_product_name (clean_product_name c6input) = "Name".data ∧
    clean_product_name (clean_product_name c6input) ≠
      clean_product_name c6input := by decide

/-- C6 (amended): the cleaner is idempotent on every input whose cleaned
result is stable under all of the cleaner's stages (already stripped, free of
the boilerplate phrase, matched by no stripping rule, unchanged by the period
and length truncations); in general idempotence fails because the stripping
loop is capped at 50 iterations. -/
theorem c6_amended (s : Str) (h : isStableClean (clean_product_name s) = true) :
    clean_product_name (clean_product_name s) = clean_product_name s := by
  unfold isStableClean at h
  simp only [Bool.and_eq_true, decide_eq_true_eq, Option.isNone_iff_eq_none] at h
  obtain ⟨⟨⟨⟨hs, hl⟩, hr⟩, hp⟩, ht⟩ := h
  by_cases hnil : clean_product_name s = []
  · rw [hnil]
    decide
  · conv_lhs => rw [clean_product_name]
    rw [hs, if_neg hnil, hl, cleanLoop_stable hs hr hnil 50, hp, ht, hs]

/-- Witness for the amended C6. -/
theorem c6_amended_witness :
    isStableClean (clean_product_name "FooWidget".data) = true ∧
    clean_product_name (clean_product_name "FooWidget".data) =
      clean_product_name "FooWidget".data :=
  ⟨by decide, c6_amended "FooWidget".data (by decide)⟩

/-- C8 counterexample: on the spec's input the cleaner stops at
`x1,5 Kabel XYZ123 Skarvdosa`, which begins before `Kabel` (it is not a
suffix of the input's tail starting at `Kabel`). -/
theorem c8_counterexample :
    clean_product_name c8input = "x1,5 Kabel XYZ123 Skarvdosa".data ∧
    (clean_product_name c8input).isSuffixOf "Kabel XYZ123 Skarvdosa".data
      = false := by decide

/-- C8 (amended): the cleaner strips the leading dimension chunk `10 mm² 3`,
returning `x1,5 Kabel XYZ123 Skarvdosa`; the result does not start with a
digit or a unit token, but it begins before `Kabel` (the second dimension
chunk `x1,5` has no unit and survives). -/
theorem c8_amended :
    clean_product_name c8input = "x1,5 Kabel XYZ123 Skarvdosa".data ∧
    (clean_product_name c8input).take 1 = ['x'] ∧
    Char.isDigit 'x' = false ∧
    firstUnitB (clean_product_name c8input) = none := by decide

/-- C9 counterexample: the spec text of `d9`'s last occurrence exceeds 30
characters and its first capitalized word is at index 0, yet the emitted spec
text is not truncated (the portion before the word has fewer than 2
characters). -/
theorem c9_counterexample :
    parse_catalog [d9] = [⟨"1234567".data, "Name".data, "hdr".data, t9bad⟩] ∧
    30 < t9bad.length ∧ capWordIdx t9bad = some 0 ∧
    specFinish true t9bad ≠ strip (t9bad.take 0) := by decide

/-- C9 (amended): for the last occurrence only, when the cleaned spec text
exceeds 30 characters and contains a boundary-delimited capitalized word of
length at least 5, and the stripped portion before that word has at least 2
characters, the spec text is truncated to that stripped portion; non-last
occurrences are never trimmed. -/
theorem c9_amended (t : Str) (i : Nat) (h30 : 30 < t.length)
    (hf : capWordIdx t = some i) (h2 : 2 ≤ (strip (t.take i)).length) :
    specFinish true t = strip (t.take i) ∧ specFinish false t = t := by
  constructor
  · unfold specFinish trimCap
    rw [if_pos ⟨rfl, h30⟩, hf]
    exact if_pos h2
  · unfold specFinish
    rw [if_neg (by simp)]

/-- Witness for the amended C9. -/
theorem c9_amended_witness :
    30 < t9good.length ∧ capWordIdx t9good = some 21 ∧
    2 ≤ (strip (t9good.take 21)).length ∧
    specFinish true t9good = strip (t9good.take 21) :=
  ⟨by decide, by decide, by decide,
    (c9_amended t9good 21 (by decide) (by decide) (by decide)).1⟩
